import Mathlib

/-
Verification of the case-extraction core of a COVID disclosure scraper
(src/main.py).  The markup library and the network are external
collaborators: a fetched document is modelled as the ordered list of the
visible texts of its span nodes, and the entry page as the ordered list of
its anchor nodes.  All machine integers are unbounded in the source
language, so they are modelled as Int and Nat directly.  Fallible
operations, which in the source raise exceptions, return Option.
-/

set_option autoImplicit false

/-- Case record, from the Case class in main.py (lines 11 to 28).
Field defaults mirror the constructor defaults: -1 sentinels for the
numeric fields and empty strings for address and trace. -/
structure Case where
  case_id : Int := -1
  gender : Int := -1
  close_contact_id : Int := -1
  age : Int := -1
  address : String := ""
  trace : String := ""
deriving DecidableEq

/-- Decimal digit characters of a positive number, most significant first.
The fuel argument bounds the recursion depth; fuel equal to the number
itself is always enough. -/
def natCharsAux : Nat → Nat → List Char
  | 0, _ => []
  | fuel + 1, n =>
    if n = 0 then [] else natCharsAux fuel (n / 10) ++ [Char.ofNat (48 + n % 10)]

/-- Decimal rendering of a natural number, as produced by str in the
source language. -/
def natChars (n : Nat) : List Char :=
  if n = 0 then [Char.ofNat 48] else natCharsAux n n

/-- Decimal rendering of an integer, as produced by str in the source
language: a minus sign followed by the digits for negative numbers. -/
def intChars (i : Int) : List Char :=
  if i < 0 then Char.ofNat 45 :: natChars i.natAbs else natChars i.toNat

/-- Case.is_empty from main.py lines 27 to 28: true when gender,
close contact and age are all the -1 sentinel and address and trace are
both empty. -/
def Case.is_empty (c : Case) : Bool :=
  c.gender == -1 && c.close_contact_id == -1 && c.age == -1 &&
    c.address == "" && c.trace == ""

/-- Case.csv from main.py lines 24 to 25, at the character level: the six
fields joined by commas, numeric fields in decimal, terminated by a
newline. -/
def Case.csvRow (c : Case) : List Char :=
  intChars c.case_id ++ [','] ++ intChars c.gender ++ [','] ++
    intChars c.age ++ [','] ++ c.address.data ++ [','] ++
    intChars c.close_contact_id ++ [','] ++ c.trace.data ++ ['\n']

/-- Case.csv from main.py lines 24 to 25 as a string. -/
def Case.csv (c : Case) : String :=
  String.mk c.csvRow

/-- First maximal run of decimal digit characters in a list, if any:
the match of the regular expression of one or more digits. -/
def firstDigitRun : List Char → Option (List Char)
  | [] => none
  | c :: cs =>
    if c.isDigit then some (c :: cs.takeWhile Char.isDigit)
    else firstDigitRun cs

/-- Value of a list of decimal digit characters, as computed by int on a
digit string. -/
def digitsToNat (cs : List Char) : Nat :=
  cs.foldl (fun a c => a * 10 + (c.toNat - 48)) 0

/-- extract_number from main.py lines 55 to 66, at its only used index
i = 0: the first run of digits in the string parsed as an integer, or
none when the search fails (in the source the subscript on the failed
search raises). -/
def extract_number (s : String) : Option Nat :=
  (firstDigitRun s.data).map digitsToNat

/-- The case boundary test of main.py line 89: re.match of the pattern
of the four confirmed-case marker characters followed by one or more
digits, anchored at the start of the text. -/
def matchBoundary (t : String) : Bool :=
  match t.data with
  | '确' :: '诊' :: '病' :: '例' :: c :: _ => c.isDigit
  | _ => false

/-- The activity-trace label test of main.py line 132: re.match of the
four label characters anchored at the start of the text. -/
def matchTraceLabel (t : String) : Bool :=
  match t.data with
  | '活' :: '动' :: '轨' :: '迹' :: _ => true
  | _ => false

/-- Leftmost search for one or more digits immediately followed by a
fixed all non-digit suffix, returning the full matched span: the
semantics of re.search for the close-contact and age patterns of main.py
lines 94 and 114.  At each position, the greedy digit run must reach the
suffix; shortening the run only exposes more digits, so only the maximal
run can match, and a failed position advances by one character. -/
def searchRunThen (suf : List Char) : List Char → Option (List Char)
  | [] => none
  | c :: cs =>
    if c.isDigit then
      if suf.isPrefixOf (cs.dropWhile Char.isDigit) then
        some ((c :: cs.takeWhile Char.isDigit) ++ suf)
      else searchRunThen suf cs
    else searchRunThen suf cs

/-- The lazy body of the address pattern of main.py line 123: the
characters after the marker up to and including the first full-width
period.  The dot of the pattern does not cross a newline, and a missing
period means no match at this position. -/
def searchAddressBody : List Char → Option (List Char)
  | [] => none
  | c :: cs =>
    if c = '。' then some [c]
    else if c = '\n' then none
    else (searchAddressBody cs).map (fun r => c :: r)

/-- Leftmost search for the address pattern of main.py line 123: the
two marker characters, then any characters up to and including the next
full-width period.  Returns the full matched span. -/
def searchAddress : List Char → Option (List Char)
  | [] => none
  | c :: cs =>
    if c = '现' then
      match cs with
      | c2 :: cs2 =>
        if c2 = '住' then
          match searchAddressBody cs2 with
          | some body => some (c :: c2 :: body)
          | none => searchAddress cs
        else searchAddress cs
      | [] => none
    else searchAddress cs

/-- The close-contact block of main.py lines 94 to 101: search for digits
followed by the close-contact label; on a match parse the digits of the
matched span, otherwise the -1 sentinel.  A failed parse of the matched
span models the exception of the source and yields none. -/
def ccField (text : String) : Option Int :=
  match searchRunThen ['密', '接'] text.data with
  | some m => (extract_number (String.mk m)).map (fun k => (k : Int))
  | none => some (-1)

/-- The gender block of main.py lines 103 to 111: the first occurrence of
either gender character decides the field, male 0 and female 1; absence
leaves the -1 sentinel. -/
def genderField (text : String) : Int :=
  match List.find? (fun ch => ch == '男' || ch == '女') text.data with
  | some g => if g == '男' then 0 else 1
  | none => -1

/-- The age block of main.py lines 114 to 120: search for digits followed
by the age unit character; on a match parse the digits of the matched
span, otherwise the -1 sentinel is left in place. -/
def ageField (text : String) : Option Int :=
  match searchRunThen ['岁'] text.data with
  | some m => (extract_number (String.mk m)).map (fun k => (k : Int))
  | none => some (-1)

/-- The address block of main.py lines 123 to 129: on a match, the span
with the two marker characters and the trailing period stripped; absence
leaves the empty string. -/
def addressField (text : String) : String :=
  match searchAddress text.data with
  | some m => String.mk ((m.drop 2).dropLast)
  | none => ""

/-- The record built by the boundary branch of main.py lines 91 to 131:
a fresh Case whose identifier is the first digit run of the text and
whose other fields come from the four independent searches.  None models
an exception inside the branch. -/
def makeCase (text : String) : Option Case :=
  match extract_number text with
  | none => none
  | some n =>
    match ccField text, ageField text with
    | some cc, some ag =>
      some { case_id := (n : Int), gender := genderField text,
             close_contact_id := cc, age := ag,
             address := addressField text, trace := "" }
    | _, _ => none

/-- The loop state of find_cases: the list built so far and the
awaiting-trace flag. -/
structure ExtractState where
  all_cases : List Case
  flag : Bool
deriving DecidableEq

/-- Assignment to the trace of the last element of the list, from the
negative-index store of main.py line 87. -/
def setTraceLast (l : List Case) (t : String) : List Case :=
  match l with
  | [] => []
  | [c] => [{ c with trace := t }]
  | c :: rest => c :: setTraceLast rest t

/-- One iteration of the span loop of main.py lines 83 to 133: first the
pending trace assignment (an index error on an empty list), then the
boundary branch, then the trace-label branch that arms the flag. -/
def processSpan (st : ExtractState) (text : String) : Option ExtractState :=
  match (if st.flag then
           match st.all_cases with
           | [] => none
           | _ :: _ =>
             some { all_cases := setTraceLast st.all_cases text, flag := false }
         else some st) with
  | none => none
  | some st1 =>
    match (if matchBoundary text then
             match makeCase text with
             | none => none
             | some c => some { st1 with all_cases := st1.all_cases ++ [c] }
           else some st1) with
    | none => none
    | some st2 =>
      some (if matchTraceLabel text then { st2 with flag := true } else st2)

/-- The span loop of find_cases, folded over the remaining span texts. -/
def find_cases_aux : List String → ExtractState → Option (List Case)
  | [], st => some st.all_cases
  | t :: ts, st =>
    match processSpan st t with
    | none => none
    | some st1 => find_cases_aux ts st1

/-- find_cases from main.py lines 69 to 137: walk the span texts of a
document with an initially empty list and a cleared flag. -/
def find_cases (spans : List String) : Option (List Case) :=
  find_cases_aux spans { all_cases := [], flag := false }

/-- An anchor node of the entry document: its visible text and its href
attribute when present. -/
structure Anchor where
  text : String
  href : Option String
deriving DecidableEq

/-- The date-label test of main.py line 154: digits, the month character,
digits, then the day marker and the two city characters, anchored at the
start of the anchor text. -/
def matchDateLabel (t : String) : Bool :=
  match t.data with
  | c :: rest =>
    c.isDigit &&
      (match rest.dropWhile Char.isDigit with
       | '月' :: r2 =>
         (match r2 with
          | d :: r3 =>
            d.isDigit &&
              (match r3.dropWhile Char.isDigit with
               | '日' :: '扬' :: '州' :: _ => true
               | _ => false)
          | [] => false)
       | _ => false)
  | [] => false

/-- compile_url_list from main.py lines 140 to 158, over the anchor nodes
of the already fetched entry document: collect, in document order, the
href of every anchor whose text matches the date label; a matching anchor
without the attribute raises in the source, modelled as none. -/
def compile_url_list : List Anchor → Option (List String)
  | [] => some []
  | a :: rest =>
    if matchDateLabel a.text then
      match a.href with
      | none => none
      | some h =>
        match compile_url_list rest with
        | none => none
        | some tail => some (h :: tail)
    else compile_url_list rest

/-- The document loop of main.py lines 166 to 171: each document is given
to find_cases on its own, and the per-document results are concatenated
in order. -/
def process_docs : List (List String) → Option (List Case)
  | [] => some []
  | d :: ds =>
    match find_cases d with
    | none => none
    | some cs =>
      match process_docs ds with
      | none => none
      | some more => some (cs ++ more)

/-- The console report loop of main.py lines 173 to 175: the records
printed, in order, are those that are not empty. -/
def printedCases : List Case → List Case
  | [] => []
  | c :: rest => if c.is_empty then printedCases rest else c :: printedCases rest

/-- The file output loop of main.py lines 178 to 180: the rows written
after the header, in order, are the csv rows of the records that are not
empty. -/
def csvRows : List Case → List (List Char)
  | [] => []
  | c :: rest => if c.is_empty then csvRows rest else c.csvRow :: csvRows rest

/-- Splitting a character list on the comma delimiter. -/
def splitComma : List Char → List (List Char)
  | [] => [[]]
  | c :: cs =>
    if c = ',' then [] :: splitComma cs
    else
      match splitComma cs with
      | [] => [[c]]
      | r :: rs => (c :: r) :: rs

/-- Modelled from the spec: re-parsing a written row by dropping the line
terminator and splitting on the delimiter, as described by the round-trip
property of the spec; the source never reads its own output back. -/
def rowFields (s : String) : List (List Char) :=
  splitComma s.data.dropLast

/-- Parse of a non-empty all-digit character list back to a natural
number. -/
def parseNatChars (cs : List Char) : Option Nat :=
  if !cs.isEmpty && cs.all Char.isDigit then some (digitsToNat cs) else none

/-- Parse of a decimal integer rendering: an optional leading minus sign
followed by digits. -/
def parseIntChars (cs : List Char) : Option Int :=
  match cs with
  | [] => none
  | c :: rest =>
    if c = '-' then (parseNatChars rest).map (fun n => -(n : Int))
    else (parseNatChars cs).map (fun n => (n : Int))

/-- Modelled from the spec: rebuilding a record from the six split fields
of a row, numeric fields parsed back from their decimal rendering. -/
def fromRow : List (List Char) → Option Case
  | [i, g, a, ad, cc, tr] =>
    match parseIntChars i, parseIntChars g, parseIntChars a, parseIntChars cc with
    | some vi, some vg, some va, some vcc =>
      some { case_id := vi, gender := vg, age := va,
             address := String.mk ad, close_contact_id := vcc,
             trace := String.mk tr }
    | _, _, _, _ => none
  | _ => none

/-- A record with its trace field cleared: the part of a record that is
fixed at creation time and never touched by the deferred trace
assignment. -/
def stripTrace (c : Case) : Case :=
  { c with trace := "" }

lemma digitChar_isDigit (d : Nat) (h : d < 10) :
    (Char.ofNat (48 + d)).isDigit = true := by
  interval_cases d <;> decide

lemma digitChar_toNat (d : Nat) (h : d < 10) :
    (Char.ofNat (48 + d)).toNat = 48 + d := by
  interval_cases d <;> decide

lemma mem_natCharsAux_isDigit :
    ∀ (fuel n : Nat), ∀ x ∈ natCharsAux fuel n, x.isDigit = true := by
  intro fuel
  induction fuel with
  | zero => intro n x hx; simp [natCharsAux] at hx
  | succ f ih =>
    intro n x hx
    by_cases hn : n = 0
    · simp [natCharsAux, hn] at hx
    · simp only [natCharsAux, if_neg hn, List.mem_append, List.mem_singleton] at hx
      rcases hx with hx | hx
      · exact ih _ x hx
      · subst hx; exact digitChar_isDigit _ (Nat.mod_lt _ (by norm_num))

lemma mem_natChars_isDigit (n : Nat) : ∀ x ∈ natChars n, x.isDigit = true := by
  intro x hx
  by_cases hn : n = 0
  · simp [natChars, hn] at hx; subst hx; decide
  · simp only [natChars, if_neg hn] at hx
    exact mem_natCharsAux_isDigit _ _ x hx

lemma natChars_ne_nil (n : Nat) : natChars n ≠ [] := by
  by_cases hn : n = 0
  · simp [natChars, hn]
  · obtain ⟨m, rfl⟩ := Nat.exists_eq_succ_of_ne_zero hn
    simp [natChars, natCharsAux]

lemma foldl_natCharsAux :
    ∀ (fuel n a : Nat), n ≤ fuel →
      List.foldl (fun acc c => acc * 10 + (c.toNat - 48)) a (natCharsAux fuel n) =
        a * 10 ^ (natCharsAux fuel n).length + n := by
  intro fuel
  induction fuel with
  | zero =>
    intro n a hn
    interval_cases n
    simp [natCharsAux]
  | succ f ih =>
    intro n a hn
    by_cases h0 : n = 0
    · simp [natCharsAux, h0]
    · have hdiv : n / 10 ≤ f := by
        have := Nat.div_lt_self (Nat.pos_of_ne_zero h0) (by norm_num : 1 < 10)
        omega
      simp only [natCharsAux, if_neg h0, List.foldl_append, List.foldl_cons,
        List.foldl_nil, List.length_append, List.length_cons, List.length_nil]
      rw [ih _ a hdiv, digitChar_toNat _ (Nat.mod_lt _ (by norm_num))]
      have hmod : 48 + n % 10 - 48 = n % 10 := by omega
      rw [hmod, pow_succ]
      have := Nat.div_add_mod n 10
      ring_nf
      omega

lemma digitsToNat_natChars (n : Nat) : digitsToNat (natChars n) = n := by
  by_cases hn : n = 0
  · subst hn; decide
  · simp only [natChars, if_neg hn, digitsToNat]
    have := foldl_natCharsAux n n 0 (le_refl n)
    simpa using this

lemma parseNatChars_natChars (n : Nat) : parseNatChars (natChars n) = some n := by
  have h1 : (natChars n).isEmpty = false := by
    cases h : natChars n with
    | nil => exact absurd h (natChars_ne_nil n)
    | cons c cs => simp [List.isEmpty]
  have h2 : (natChars n).all Char.isDigit = true :=
    List.all_eq_true.mpr (mem_natChars_isDigit n)
  simp [parseNatChars, h1, h2, digitsToNat_natChars]

lemma parseIntChars_intChars (i : Int) : parseIntChars (intChars i) = some i := by
  by_cases hi : i < 0
  · have hch : Char.ofNat 45 = '-' := by decide
    have h1 : intChars i = '-' :: natChars i.natAbs := by
      simp only [intChars, if_pos hi, hch]
    rw [h1]
    simp [parseIntChars, parseNatChars_natChars]
    rw [abs_of_neg hi]
    ring
  · simp only [intChars, if_neg hi]
    cases h : natChars i.toNat with
    | nil => exact absurd h (natChars_ne_nil _)
    | cons c cs =>
      have hc : c.isDigit = true := by
        apply mem_natChars_isDigit i.toNat
        rw [h]; exact List.mem_cons_self _ _
      have hnd : ¬ c = '-' := by
        intro hcd; subst hcd; simp at hc
      have hp : parseNatChars (c :: cs) = some i.toNat := by
        rw [← h]; exact parseNatChars_natChars _
      simp [parseIntChars, if_neg hnd, hp,
        Int.toNat_of_nonneg (show (0 : Int) ≤ i by omega)]

lemma comma_notMem_natChars (n : Nat) : ¬ (',') ∈ natChars n := by
  intro hm
  have := mem_natChars_isDigit n _ hm
  simp at this

lemma comma_notMem_intChars (i : Int) : ¬ (',') ∈ intChars i := by
  intro hm
  by_cases hi : i < 0
  · simp only [intChars, if_pos hi, List.mem_cons] at hm
    rcases hm with hm | hm
    · exact absurd hm (by decide)
    · exact comma_notMem_natChars _ hm
  · simp only [intChars, if_neg hi] at hm
    exact comma_notMem_natChars _ hm

lemma splitComma_ne_nil (cs : List Char) : splitComma cs ≠ [] := by
  induction cs with
  | nil => simp [splitComma]
  | cons c cs ih =>
    by_cases hc : c = ','
    · simp [splitComma, hc]
    · simp only [splitComma, if_neg hc]
      cases h : splitComma cs with
      | nil => exact absurd h ih
      | cons r rs => simp

lemma splitComma_of_notMem (cs : List Char) (h : ¬ (',') ∈ cs) :
    splitComma cs = [cs] := by
  induction cs with
  | nil => rfl
  | cons c cs ih =>
    have hc : ¬ c = ',' := fun hc => h (hc ▸ List.mem_cons_self _ _)
    have hcs : ¬ (',') ∈ cs := fun hm => h (List.mem_cons_of_mem _ hm)
    simp only [splitComma, if_neg hc, ih hcs]

lemma splitComma_append (xs ys : List Char) (h : ¬ (',') ∈ xs) :
    splitComma (xs ++ (',') :: ys) = xs :: splitComma ys := by
  induction xs with
  | nil => simp [splitComma]
  | cons x xs ih =>
    have hx : ¬ x = ',' := fun hx => h (hx ▸ List.mem_cons_self _ _)
    have hxs : ¬ (',') ∈ xs := fun hm => h (List.mem_cons_of_mem _ hm)
    simp only [List.cons_append, splitComma, if_neg hx, List.append_eq]
    rw [ih hxs]

lemma firstDigitRun_cons_true (c : Char) (l : List Char) (h : c.isDigit = true) :
    firstDigitRun (c :: l) = some (c :: l.takeWhile Char.isDigit) := by
  simp [firstDigitRun, h]

lemma firstDigitRun_cons_false (c : Char) (l : List Char) (h : c.isDigit = false) :
    firstDigitRun (c :: l) = firstDigitRun l := by
  simp [firstDigitRun, h]

lemma matchBoundary_data (t : String) (h : matchBoundary t = true) :
    ∃ d rest, t.data = '确' :: '诊' :: '病' :: '例' :: d :: rest ∧
      d.isDigit = true := by
  unfold matchBoundary at h
  split at h
  · next d rest heq => exact ⟨d, rest, heq, h⟩
  · exact absurd h (by simp)

lemma extract_number_of_boundary (t : String) (d : Char) (rest : List Char)
    (hdata : t.data = '确' :: '诊' :: '病' :: '例' :: d :: rest)
    (hd : d.isDigit = true) :
    extract_number t = some (digitsToNat (d :: rest.takeWhile Char.isDigit)) := by
  unfold extract_number
  rw [hdata]
  rw [firstDigitRun_cons_false _ _ (by decide), firstDigitRun_cons_false _ _ (by decide),
    firstDigitRun_cons_false _ _ (by decide), firstDigitRun_cons_false _ _ (by decide),
    firstDigitRun_cons_true _ _ hd]
  rfl

lemma searchRunThen_some (suf : List Char) :
    ∀ (l m : List Char), searchRunThen suf l = some m →
      ∃ d r, m = d :: r ∧ d.isDigit = true := by
  intro l
  induction l with
  | nil => intro m h; simp [searchRunThen] at h
  | cons c cs ih =>
    intro m h
    by_cases hc : c.isDigit = true
    · rw [searchRunThen, if_pos hc] at h
      by_cases hp : suf.isPrefixOf (cs.dropWhile Char.isDigit) = true
      · rw [if_pos hp] at h
        injection h with h
        exact ⟨c, cs.takeWhile Char.isDigit ++ suf, by rw [← h]; simp, hc⟩
      · rw [if_neg hp] at h
        exact ih m h
    · rw [searchRunThen, if_neg hc] at h
      exact ih m h

lemma extract_number_mk_cons (d : Char) (r : List Char) (hd : d.isDigit = true) :
    extract_number (String.mk (d :: r)) =
      some (digitsToNat (d :: r.takeWhile Char.isDigit)) := by
  unfold extract_number
  have : (String.mk (d :: r)).data = d :: r := rfl
  rw [this, firstDigitRun_cons_true _ _ hd]
  rfl

lemma ccField_isSome (t : String) : ∃ v : Int, ccField t = some v := by
  unfold ccField
  cases hs : searchRunThen ['密', '接'] t.data with
  | none => exact ⟨-1, rfl⟩
  | some m =>
    obtain ⟨d, r, rfl, hd⟩ := searchRunThen_some _ _ _ hs
    exact ⟨(digitsToNat (d :: r.takeWhile Char.isDigit) : Int), by
      simp [extract_number_mk_cons d r hd]⟩

lemma ageField_isSome (t : String) : ∃ v : Int, ageField t = some v := by
  unfold ageField
  cases hs : searchRunThen ['岁'] t.data with
  | none => exact ⟨-1, rfl⟩
  | some m =>
    obtain ⟨d, r, rfl, hd⟩ := searchRunThen_some _ _ _ hs
    exact ⟨(digitsToNat (d :: r.takeWhile Char.isDigit) : Int), by
      simp [extract_number_mk_cons d r hd]⟩

lemma makeCase_eq_of_extract (t : String) (n : Nat)
    (h : extract_number t = some n) :
    ∃ cc ag : Int, ccField t = some cc ∧ ageField t = some ag ∧
      makeCase t = some { case_id := (n : Int), gender := genderField t,
                          close_contact_id := cc, age := ag,
                          address := addressField t, trace := "" } := by
  obtain ⟨cc, hcc⟩ := ccField_isSome t
  obtain ⟨ag, hag⟩ := ageField_isSome t
  refine ⟨cc, ag, hcc, hag, ?_⟩
  unfold makeCase
  rw [h, hcc, hag]

lemma makeCase_trace (t : String) (c : Case) (h : makeCase t = some c) :
    c.trace = "" := by
  unfold makeCase at h
  split at h
  · exact absurd h (by simp)
  · split at h
    · injection h with h
      rw [← h]
    · exact absurd h (by simp)

lemma stripTrace_eq_self (c : Case) (h : c.trace = "") : stripTrace c = c := by
  cases c
  simp_all [stripTrace]

lemma setTraceLast_map_strip (l : List Case) (t : String) :
    (setTraceLast l t).map stripTrace = l.map stripTrace := by
  induction l with
  | nil => rfl
  | cons c rest ih =>
    cases rest with
    | nil => simp [setTraceLast, stripTrace]
    | cons c2 r2 =>
      simp only [setTraceLast, List.map_cons]
      rw [show List.map stripTrace (setTraceLast (c2 :: r2) t) =
        List.map stripTrace (c2 :: r2) from ih]
      simp

lemma processSpan_some_elim (st : ExtractState) (t : String) (st1 : ExtractState)
    (h : processSpan st t = some st1) :
    ∃ base : List Case, base.map stripTrace = st.all_cases.map stripTrace ∧
      ((matchBoundary t = true ∧
          ∃ c, makeCase t = some c ∧ st1.all_cases = base ++ [c]) ∨
       (matchBoundary t = false ∧ st1.all_cases = base)) := by
  by_cases hf : st.flag = true
  · cases hl : st.all_cases with
    | nil => simp [processSpan, hf, hl] at h
    | cons c0 rest =>
      refine ⟨setTraceLast (c0 :: rest) t, setTraceLast_map_strip _ _, ?_⟩
      cases hb : matchBoundary t with
      | true =>
        cases hm : makeCase t with
        | none => simp [processSpan, hf, hl, hb, hm] at h
        | some c =>
          refine Or.inl ⟨rfl, c, rfl, ?_⟩
          cases hlab : matchTraceLabel t <;>
          · simp [processSpan, hf, hl, hb, hm, hlab] at h
            simp [← h]
      | false =>
        refine Or.inr ⟨rfl, ?_⟩
        cases hlab : matchTraceLabel t <;>
        · simp [processSpan, hf, hl, hb, hlab] at h
          simp [← h]
  · have hf2 : st.flag = false := eq_false_of_ne_true hf
    refine ⟨st.all_cases, rfl, ?_⟩
    cases hb : matchBoundary t with
    | true =>
      cases hm : makeCase t with
      | none => simp [processSpan, hf2, hb, hm] at h
      | some c =>
        refine Or.inl ⟨rfl, c, rfl, ?_⟩
        cases hlab : matchTraceLabel t <;>
        · simp [processSpan, hf2, hb, hm, hlab] at h
          simp [← h]
    | false =>
      refine Or.inr ⟨rfl, ?_⟩
      cases hlab : matchTraceLabel t <;>
      · simp [processSpan, hf2, hb, hlab] at h
        simp [← h]

lemma find_cases_aux_strip :
    ∀ (spans : List String) (st : ExtractState) (cases : List Case),
      find_cases_aux spans st = some cases →
      ∃ news : List Case,
        cases.map stripTrace = st.all_cases.map stripTrace ++ news ∧
        (spans.filter (fun t => matchBoundary t)).map makeCase = news.map some := by
  intro spans
  induction spans with
  | nil =>
    intro st cases h
    simp only [find_cases_aux, Option.some.injEq] at h
    subst h
    exact ⟨[], by simp, by simp⟩
  | cons t ts ih =>
    intro st cases h
    simp only [find_cases_aux] at h
    cases hp : processSpan st t with
    | none => rw [hp] at h; exact absurd h (by simp)
    | some st1 =>
      rw [hp] at h
      obtain ⟨news1, hcases, hfilter⟩ := ih st1 cases h
      obtain ⟨base, hbase, hsplit⟩ := processSpan_some_elim st t st1 hp
      rcases hsplit with ⟨hb, c, hm, hacc⟩ | ⟨hb, hacc⟩
      · have hstrip : stripTrace c = c := stripTrace_eq_self c (makeCase_trace t c hm)
        rw [hacc, List.map_append, hbase] at hcases
        refine ⟨c :: news1, ?_, ?_⟩
        · rw [hcases]
          simp [hstrip]
        · simp [List.filter_cons, hb, hm, hfilter]
      · rw [hacc, hbase] at hcases
        exact ⟨news1, hcases, by simp [List.filter_cons, hb, hfilter]⟩

lemma processSpan_flag_false (st : ExtractState) (t : String) (c : Case)
    (hf : st.flag = false) (hb : matchBoundary t = true)
    (hm : makeCase t = some c) :
    processSpan st t =
      some { all_cases := st.all_cases ++ [c], flag := matchTraceLabel t } := by
  cases hlab : matchTraceLabel t <;>
    simp [processSpan, hf, hb, hm, hlab]

lemma find_cases_aux_label_none (lab t2 : String) (rest : List String)
    (hlab : matchBoundary lab = false) (hlabel : matchTraceLabel lab = true) :
    ∀ (pre : List String) (st : ExtractState), st.all_cases = [] →
      (∀ s ∈ pre, matchBoundary s = false) →
      find_cases_aux (pre ++ lab :: t2 :: rest) st = none := by
  intro pre
  induction pre with
  | nil =>
    intro st hst hpre
    obtain ⟨alc, fl⟩ := st
    simp only at hst
    subst hst
    simp only [List.nil_append, find_cases_aux]
    cases fl with
    | true =>
      have hnone : processSpan ⟨[], true⟩ lab = none := by simp [processSpan]
      rw [hnone]
    | false =>
      have hps : processSpan ⟨[], false⟩ lab = some ⟨[], true⟩ := by
        simp [processSpan, hlab, hlabel]
      rw [hps]
      simp only [find_cases_aux]
      have hnone : processSpan ⟨[], true⟩ t2 = none := by simp [processSpan]
      rw [hnone]
  | cons s pre ih =>
    intro st hst hpre
    obtain ⟨alc, fl⟩ := st
    simp only at hst
    subst hst
    have hs : matchBoundary s = false := hpre s (List.mem_cons_self _ _)
    have hpre2 : ∀ x ∈ pre, matchBoundary x = false :=
      fun x hx => hpre x (List.mem_cons_of_mem _ hx)
    simp only [List.cons_append, find_cases_aux]
    cases fl with
    | true =>
      have hnone : processSpan ⟨[], true⟩ s = none := by simp [processSpan]
      rw [hnone]
    | false =>
      have hps : processSpan ⟨[], false⟩ s =
          some { all_cases := [], flag := matchTraceLabel s } := by
        cases hlab2 : matchTraceLabel s <;>
          simp [processSpan, hs, hlab2]
      rw [hps]
      exact ih _ rfl hpre2

/-- C1: for the node text of the first spec example, extraction produces a
single record with identifier 12, gender male (code 0), age 45,
close-contact identifier 3, and the home address with the marker and the
trailing full-width period stripped. -/
theorem C1_example_record :
    find_cases [("确诊病例12，男，45岁，3密接，现住扬州市邗江区。")] =
      some [{ case_id := 12, gender := 0, close_contact_id := 3, age := 45,
              address := "扬州市邗江区", trace := "" }] := by decide

/-- C2 counterexample: a node that matches the case boundary while the
awaiting-trace flag is set receives both effects: its text is assigned as
the trace of the previously appended record, and a new record is
appended for the boundary match.  So a boundary match and a trace
assignment on the same node can both apply, refuting the claim as
stated. -/
theorem C2_counterexample :
    matchBoundary ("确诊病例2") = true ∧
    processSpan { all_cases := [{ case_id := 1 }], flag := true } ("确诊病例2") =
      some { all_cases := [{ case_id := 1, trace := "确诊病例2" },
                           { case_id := 2 }], flag := false } := by decide

/-- C2 amended: for every node processed while the awaiting-trace flag is
set (and a record exists), the node text is assigned verbatim as the
trace of the most recently appended record and the flag is cleared; if
the same node also matches a case boundary, both effects occur, and the
trace attaches to the record appended before this node, never to the one
created by this node, because boundary detection runs after the trace
assignment. -/
theorem C2_trace_then_boundary (st : ExtractState) (t : String)
    (hf : st.flag = true) (hne : st.all_cases ≠ []) :
    processSpan st t =
      if matchBoundary t then
        (makeCase t).map (fun c =>
          { all_cases := setTraceLast st.all_cases t ++ [c],
            flag := matchTraceLabel t })
      else some { all_cases := setTraceLast st.all_cases t,
                  flag := matchTraceLabel t } := by
  cases hl : st.all_cases with
  | nil => exact absurd hl hne
  | cons c0 rest =>
    cases hb : matchBoundary t with
    | false =>
      cases hlab : matchTraceLabel t <;>
        simp [processSpan, hf, hl, hb, hlab]
    | true =>
      cases hm : makeCase t with
      | none =>
        cases hlab : matchTraceLabel t <;>
          simp [processSpan, hf, hl, hb, hm, hlab]
      | some c =>
        cases hlab : matchTraceLabel t <;>
          simp [processSpan, hf, hl, hb, hm, hlab]

/-- C2 witness: the amended statement applied at a concrete state and
node. -/
theorem C2_witness :
    processSpan { all_cases := [{ case_id := 7 }], flag := true } ("确诊病例8") =
      some { all_cases := [{ case_id := 7, trace := "确诊病例8" },
                           { case_id := 8 }], flag := false } := by
  rw [C2_trace_then_boundary _ _ rfl (by simp)]
  decide

/-- C3: on every document on which extraction returns, it returns exactly
one record per node whose text matches the anchored boundary pattern, in
document order: the boundary nodes of the document, mapped through the
record builder, are exactly the returned records (their later trace
mutation stripped), position by position. -/
theorem C3_one_record_per_boundary (spans : List String) (cases : List Case)
    (h : find_cases spans = some cases) :
    (spans.filter (fun t => matchBoundary t)).map makeCase =
      cases.map (fun c => some (stripTrace c)) := by
  obtain ⟨news, h1, h2⟩ := find_cases_aux_strip spans _ cases h
  simp only [List.map_nil, List.nil_append] at h1
  rw [h2, ← h1]
  simp [List.map_map, Function.comp]

/-- C3 witness: the property applied to a concrete two-node document with
one boundary node. -/
theorem C3_witness :
    (([("确诊病例1，男"), ("你好")] : List String).filter
        (fun t => matchBoundary t)).map makeCase =
      ([({ case_id := 1, gender := 0 } : Case)]).map
        (fun c => some (stripTrace c)) :=
  C3_one_record_per_boundary _ _ (by decide)

/-- C4: whenever the boundary pattern matched, the digit extraction on
the node text cannot fail, the produced record's identifier is the
integer value of the first run of digits in the text, and it is never the
-1 sentinel. -/
theorem C4_identifier_always_set (t : String) (h : matchBoundary t = true) :
    ∃ n : Nat, extract_number t = some n ∧
      ∃ c : Case, makeCase t = some c ∧ c.case_id = (n : Int) ∧
        c.case_id ≠ -1 := by
  obtain ⟨d, rest, hdata, hd⟩ := matchBoundary_data t h
  have hen := extract_number_of_boundary t d rest hdata hd
  obtain ⟨cc, ag, hcc, hag, hmk⟩ := makeCase_eq_of_extract t _ hen
  refine ⟨_, hen, _, hmk, rfl, ?_⟩
  intro heq
  simp only [Case.case_id] at heq
  omega

/-- C4 witness: the property applied at a concrete boundary-matching
node text. -/
theorem C4_witness :
    ∃ n : Nat, extract_number ("确诊病例7") = some n ∧
      ∃ c : Case, makeCase ("确诊病例7") = some c ∧ c.case_id = (n : Int) ∧
        c.case_id ≠ -1 :=
  C4_identifier_always_set _ (by decide)

/-- C5: within a boundary-matched record, field extraction is independent
per field: the record is always produced (no exception escapes), each of
gender, close contact, age and address equals the result of its own
search alone, absence of one pattern leaves exactly that field at its
sentinel value, and the record is still appended by the loop step. -/
theorem C5_fields_independent (t : String) (h : matchBoundary t = true) :
    ∃ c : Case, makeCase t = some c ∧
      c.gender = genderField t ∧
      ccField t = some c.close_contact_id ∧
      ageField t = some c.age ∧
      c.address = addressField t ∧
      (List.find? (fun ch => ch == '男' || ch == '女') t.data = none →
        c.gender = -1) ∧
      (searchRunThen ['密', '接'] t.data = none → c.close_contact_id = -1) ∧
      (searchRunThen ['岁'] t.data = none → c.age = -1) ∧
      (searchAddress t.data = none → c.address = "") ∧
      (∀ st : ExtractState, st.flag = false →
        processSpan st t =
          some { all_cases := st.all_cases ++ [c],
                 flag := matchTraceLabel t }) := by
  obtain ⟨d, rest, hdata, hd⟩ := matchBoundary_data t h
  have hen := extract_number_of_boundary t d rest hdata hd
  obtain ⟨cc, ag, hcc, hag, hmk⟩ := makeCase_eq_of_extract t _ hen
  refine ⟨_, hmk, rfl, hcc, hag, rfl, ?_, ?_, ?_, ?_, ?_⟩
  · intro hnone
    simp [genderField, hnone]
  · intro hnone
    have hv : ccField t = some (-1) := by simp [ccField, hnone]
    rw [hcc] at hv
    exact (Option.some.inj hv)
  · intro hnone
    have hv : ageField t = some (-1) := by simp [ageField, hnone]
    rw [hag] at hv
    exact (Option.some.inj hv)
  · intro hnone
    simp [addressField, hnone]
  · intro st hf
    exact processSpan_flag_false st t _ hf h hmk

/-- C5 witness: the property applied at the second spec example, whose
age token is absent, together with the concrete extraction result for
that example showing the age left unset while the other fields are
extracted. -/
theorem C5_witness :
    find_cases [("确诊病例13，女，现住广陵区。")] =
      some [{ case_id := 13, gender := 1, close_contact_id := -1, age := -1,
              address := "广陵区", trace := "" }] ∧
    (∃ c : Case, makeCase ("确诊病例13，女，现住广陵区。") = some c ∧
      c.gender = genderField ("确诊病例13，女，现住广陵区。") ∧
      ccField ("确诊病例13，女，现住广陵区。") = some c.close_contact_id ∧
      ageField ("确诊病例13，女，现住广陵区。") = some c.age ∧
      c.address = addressField ("确诊病例13，女，现住广陵区。") ∧
      (List.find? (fun ch => ch == '男' || ch == '女')
          ("确诊病例13，女，现住广陵区。" : String).data = none → c.gender = -1) ∧
      (searchRunThen ['密', '接']
          ("确诊病例13，女，现住广陵区。" : String).data = none →
        c.close_contact_id = -1) ∧
      (searchRunThen ['岁'] ("确诊病例13，女，现住广陵区。" : String).data = none →
        c.age = -1) ∧
      (searchAddress ("确诊病例13，女，现住广陵区。" : String).data = none →
        c.address = "") ∧
      (∀ st : ExtractState, st.flag = false →
        processSpan st ("确诊病例13，女，现住广陵区。") =
          some { all_cases := st.all_cases ++ [c],
                 flag := matchTraceLabel ("确诊病例13，女，现住广陵区。") })) :=
  ⟨by decide, C5_fields_independent _ (by decide)⟩

/-- C6: a node matching the activity-trace label before any case boundary
has been matched, followed by any further node, makes extraction abort
with an indexing error instead of returning a result. -/
theorem C6_trace_label_before_boundary_fatal (pre : List String)
    (lab t : String) (rest : List String)
    (hpre : ∀ s ∈ pre, matchBoundary s = false)
    (hlab : matchBoundary lab = false) (hlabel : matchTraceLabel lab = true) :
    find_cases (pre ++ lab :: t :: rest) = none :=
  find_cases_aux_label_none lab t rest hlab hlabel pre _ rfl hpre

/-- C6 witness: a concrete document whose trace label precedes any
boundary node and is followed by a further node. -/
theorem C6_witness :
    find_cases [("你好"), ("活动轨迹"), ("确诊病例1")] = none := by
  exact C6_trace_label_before_boundary_fatal [("你好")] ("活动轨迹")
    ("确诊病例1") [] (by decide) (by decide) (by decide)

/-- C7: a record is empty exactly when gender, close contact and age are
all the -1 sentinel and address and trace are both the empty string, and
both output loops, the console report and the delimited file, emit
exactly the records that are not empty, in order. -/
theorem C7_empty_records_excluded (c : Case) (l : List Case) :
    (c.is_empty = true ↔
      c.gender = -1 ∧ c.close_contact_id = -1 ∧ c.age = -1 ∧
        c.address = "" ∧ c.trace = "") ∧
    printedCases l = l.filter (fun x => ! x.is_empty) ∧
    csvRows l = (l.filter (fun x => ! x.is_empty)).map Case.csvRow := by
  refine ⟨?_, ?_, ?_⟩
  · simp [Case.is_empty, and_assoc]
  · induction l with
    | nil => rfl
    | cons x xs ih =>
      cases he : x.is_empty <;> simp [printedCases, List.filter_cons, he, ih]
  · induction l with
    | nil => rfl
    | cons x xs ih =>
      cases he : x.is_empty <;> simp [csvRows, List.filter_cons, he, ih]

/-- C8: for every record whose free-text fields contain no embedded
delimiter, writing the record as a delimited row and re-parsing it by
dropping the terminator and splitting on the delimiter reconstructs the
same record, the numeric fields rendered and re-parsed as decimal
integers, sentinels included. -/
theorem C8_csv_round_trip (c : Case) (h1 : ¬ (',') ∈ c.address.data)
    (h2 : ¬ (',') ∈ c.trace.data) :
    fromRow (rowFields c.csv) = some c := by
  have hdrop : (c.csvRow).dropLast =
      intChars c.case_id ++ (',') :: (intChars c.gender ++
        (',') :: (intChars c.age ++ (',') :: (c.address.data ++
        (',') :: (intChars c.close_contact_id ++
        (',') :: c.trace.data)))) := by
    unfold Case.csvRow
    simp [List.dropLast_append_of_ne_nil, List.dropLast_cons_of_ne_nil]
  have hsplit : rowFields c.csv =
      [intChars c.case_id, intChars c.gender, intChars c.age,
       c.address.data, intChars c.close_contact_id, c.trace.data] := by
    unfold rowFields
    have hdata : (c.csv).data = c.csvRow := rfl
    rw [hdata, hdrop]
    rw [splitComma_append _ _ (comma_notMem_intChars _),
        splitComma_append _ _ (comma_notMem_intChars _),
        splitComma_append _ _ (comma_notMem_intChars _),
        splitComma_append _ _ h1,
        splitComma_append _ _ (comma_notMem_intChars _),
        splitComma_of_notMem _ h2]
  rw [hsplit]
  simp [fromRow, parseIntChars_intChars]

/-- C8 witness: the round trip applied to the all-default record. -/
theorem C8_witness :
    fromRow (rowFields ({} : Case).csv) = some {} :=
  C8_csv_round_trip _ (by decide) (by decide)

/-- C9: on the entry document, the link collector returns exactly the
href addresses of the anchors whose text matches the anchored date
pattern, in document order and without deduplication; and a matching
anchor without the href attribute makes the collection fail instead of
returning. -/
theorem C9_link_collection (anchors : List Anchor) :
    (∀ urls : List String, compile_url_list anchors = some urls →
      (anchors.filter (fun a => matchDateLabel a.text)).map Anchor.href =
        urls.map some) ∧
    ((∃ a, a ∈ anchors ∧ matchDateLabel a.text = true ∧ a.href = none) →
      compile_url_list anchors = none) := by
  induction anchors with
  | nil =>
    constructor
    · intro urls h
      simp only [compile_url_list, Option.some.injEq] at h
      subst h
      simp
    · rintro ⟨a, ha, -, -⟩
      simp at ha
  | cons a rest ih =>
    constructor
    · intro urls h
      cases hd : matchDateLabel a.text with
      | false =>
        rw [compile_url_list, if_neg (by simp [hd])] at h
        simp [List.filter_cons, hd]
        exact ih.1 urls h
      | true =>
        rw [compile_url_list, if_pos hd] at h
        cases hh : a.href with
        | none => rw [hh] at h; exact absurd h (by simp)
        | some u =>
          rw [hh] at h
          cases hc : compile_url_list rest with
          | none => rw [hc] at h; exact absurd h (by simp)
          | some tail =>
            rw [hc] at h
            simp at h
            subst h
            have hrest := ih.1 tail hc
            simp [List.filter_cons, hd, hh, hrest]
    · rintro ⟨b, hb, hbm, hbh⟩
      rcases List.mem_cons.mp hb with rfl | hbr
      · rw [compile_url_list, if_pos hbm, hbh]
      · have hrest : compile_url_list rest = none := ih.2 ⟨b, hbr, hbm, hbh⟩
        cases hd : matchDateLabel a.text with
        | false => rw [compile_url_list, if_neg (by simp [hd])]; exact hrest
        | true =>
          rw [compile_url_list, if_pos hd]
          cases hh : a.href with
          | none => rfl
          | some u => rw [hrest]

/-- C9 witness: the collection applied to a concrete entry document with
two identical matching anchors (the duplicate is preserved), and the
fatal branch at a matching anchor without the attribute. -/
theorem C9_witness :
    (([⟨"8月5日扬州", some "u1"⟩, ⟨"hello", some "x"⟩,
       ⟨"8月5日扬州", some "u1"⟩] : List Anchor).filter
        (fun a => matchDateLabel a.text)).map Anchor.href =
      (["u1", "u1"] : List String).map some ∧
    compile_url_list
      ([⟨"8月5日扬州", some "u1"⟩, ⟨"9月1日扬州", none⟩] : List Anchor) = none :=
  ⟨(C9_link_collection _).1 _ (by decide),
   (C9_link_collection _).2 ⟨⟨"9月1日扬州", none⟩, by decide, by decide, rfl⟩⟩

/-- C10: the awaiting-trace state is local to one extraction call:
processing two documents in sequence returns exactly the concatenation
of the records each document yields on its own, so the state at the end
of one document (in particular a trailing trace label) has no effect on
the extraction of the next. -/
theorem C10_flag_local_to_call (d1 d2 : List String) (cs1 cs2 : List Case)
    (h1 : find_cases d1 = some cs1) (h2 : find_cases d2 = some cs2) :
    process_docs [d1, d2] = some (cs1 ++ cs2) := by
  simp [process_docs, h1, h2]

/-- C10 witness: the first document ends with an armed trace label, yet
the boundary node opening the second document is extracted as a fresh
record and not consumed as a trace. -/
theorem C10_witness :
    process_docs [[("确诊病例1"), ("活动轨迹")], [("确诊病例2")]] =
      some ([({ case_id := 1 } : Case)] ++ [({ case_id := 2 } : Case)]) :=
  C10_flag_local_to_call _ _ _ _ (by decide) (by decide)
